import Mathlib

/-!
# Verification model of the istio-operator control-plane reconciler

Shallow embedding of the reconciliation control loop of the
`luksa/istio-operator` repository:

* `pkg/controller/servicemesh/controlplane/manifestprocessing.go`
  (`processComponentManifests`, `processManifests`, `processObject`)
* `pkg/controller/servicemesh/controlplane/hooks.go`
  (`postProcessNewComponent`, `waitForDeployments`, `waitForDeployment`,
  `waitForWebhookCABundleInitialization`, `processNewObject`,
  `processDeletedObject`)
* the `ControlPlaneReconciler.Reconcile` / `handleError` / ordered component
  walk from the control-plane reconciler file.

External collaborators (the Kubernetes client, the helm renderer, the patch
factory) are modelled as an environment of outcome functions; all reconciler
code is translated function by function.  Go pointer mutation is replaced by
explicit state passing: wherever the source appends a pointer to a slice and
mutates it afterwards, the model computes the final value first and then
appends it, which is observationally the same.
-/

/-- Canonical identity of a cluster object (`v1.ResourceKey`): the source
encodes kind/namespace/name into a string key; the model keeps the fields. -/
structure ResourceKey where
  kind : String
  nspace : String
  name : String
deriving DecidableEq, Repr

/-- Condition types used by the reconciler (`v1.ConditionTypeInstalled`,
`v1.ConditionTypeReconciled`). -/
inductive ConditionType where
  | Installed
  | Reconciled
deriving DecidableEq, Repr

/-- Condition statuses (`v1.ConditionStatusTrue/False/Unknown`). -/
inductive ConditionStatus where
  | sTrue
  | sFalse
  | sUnknown
deriving DecidableEq, Repr

/-- A status condition: type, status and a human readable message. -/
structure Condition where
  ctype : ConditionType
  status : ConditionStatus
  message : String
deriving DecidableEq, Repr

/-- Errors flowing through the reconciler.  `notReady` is the distinguished
`ComponentNotReadyError` type; `notFound` / `gone` are the api-machinery
status errors recognised by `errors.IsNotFound` / `errors.IsGone`;
`aggregate` is `utilerrors.NewAggregate` applied to a non-empty list. -/
inductive Err where
  | notReady (msg : String)
  | notFound (msg : String)
  | gone (msg : String)
  | apiError (msg : String)
  | parseError (msg : String)
  | aggregate (errs : List Err)

/-- `errors.IsNotFound`. -/
def Err.isNotFound : Err → Bool
  | .notFound _ => true
  | _ => false

/-- `errors.IsGone`. -/
def Err.isGone : Err → Bool
  | .gone _ => true
  | _ => false

/-- The Go type assertion `err.(ComponentNotReadyError)`: only the bare
`ComponentNotReadyError` value satisfies it, never a wrapped or aggregated
error. -/
def Err.isNotReady : Err → Bool
  | .notReady _ => true
  | _ => false

/-- `utilerrors.NewAggregate`: `nil` on an empty error list, otherwise an
aggregate of the collected errors. -/
def aggregate (errs : List Err) : Option Err :=
  match errs with
  | [] => none
  | _ => some (.aggregate errs)

/-- Condition lookup: the condition of the given type, or an `Unknown`
placeholder when absent (`status.GetCondition`). -/
def getCondition : List Condition → ConditionType → Condition
  | [], t => { ctype := t, status := .sUnknown, message := "" }
  | c :: rest, t => if c.ctype = t then c else getCondition rest t

/-- Condition update: replaces the condition of the same type or appends a
new one (`status.SetCondition`; the spec invariant keeps at most one
condition per type). -/
def setCondition : List Condition → Condition → List Condition
  | [], c => [c]
  | d :: rest, c => if d.ctype = c.ctype then c :: rest else d :: setCondition rest c

/-- Condition removal (`status.RemoveCondition`). -/
def removeCondition : List Condition → ConditionType → List Condition
  | [], _ => []
  | d :: rest, t =>
    if d.ctype = t then removeCondition rest t else d :: removeCondition rest t

/-- The shared condition/generation record (`v1.StatusType`). -/
structure StatusType where
  observedGeneration : Int
  conditions : List Condition
deriving DecidableEq, Repr

/-- `v1.NewStatus()`: a fresh status record. -/
def newStatusType : StatusType := { observedGeneration := 0, conditions := [] }

/-- Per-resource status entry: the resource key together with its
`v1.StatusType` record. -/
structure ResourceStatus where
  resource : ResourceKey
  status : StatusType
deriving DecidableEq, Repr

/-- Per-component status (`v1.ComponentStatus`): the component name, its
embedded `StatusType`, and the tracked resource statuses. -/
structure ComponentStatus where
  resource : String
  status : StatusType
  resources : List ResourceStatus
deriving DecidableEq, Repr

/-- Top-level status (`v1.ControlPlaneStatus`). -/
structure ControlPlaneStatus where
  status : StatusType
  componentStatus : List ComponentStatus
deriving DecidableEq, Repr

/-- `status.FindComponentByName`. -/
def findComponentByName (l : List ComponentStatus) (name : String) :
    Option ComponentStatus :=
  l.find? (fun c => c.resource == name)

/-- `oldStatus.FindResourceByKey`. -/
def findResourceByKey (cs : ComponentStatus) (k : ResourceKey) :
    Option ResourceStatus :=
  cs.resources.find? (fun s => s.resource == k)

/-- `status.FindResourcesOfKind`. -/
def findResourcesOfKind (rs : List ResourceStatus) (kind : String) :
    List ResourceStatus :=
  rs.filter (fun s => s.resource.kind == kind)

/-- Whether a resource status carries an `Installed = True` condition (the
guard used by the readiness hooks). -/
def installedTrue (s : ResourceStatus) : Bool :=
  (getCondition s.status.conditions .Installed).status == .sTrue

/-- A generic (unstructured) non-List cluster object: the fields the
reconciler reads or writes.  `ownerRefs` stands for the owner-reference
slice, `labels`/`annotations` for the respective string maps. -/
structure BaseObj where
  kind : String
  nspace : String
  name : String
  labels : List (String × String)
  annotations : List (String × String)
  ownerRefs : List String
deriving DecidableEq, Repr

/-- An unstructured object as decoded from a manifest document: either a
plain object or a `List`-kind container.  Items of a `List` are modelled as
plain objects (rendered manifests do not nest `List` containers). -/
inductive KObject where
  | base (o : BaseObj)
  | list (items : List BaseObj)

/-- One raw document produced by `releaseutil.SplitManifests`: either a
document that fails `yaml.YAMLToJSON`, one that fails
`UnstructuredJSONScheme.Decode`, or a decoded object. -/
inductive RawDoc where
  | yamlError (msg : String)
  | decodeError (msg : String)
  | obj (o : KObject)

/-- A rendered helm manifest (`manifest.Manifest`): its file name and its
already-split document list. -/
structure Manifest where
  name : String
  content : List RawDoc

/-- `v1.NewResourceKey(obj, obj)`: the identity key is computed from the
object before it is mutated (the mutations never touch kind/namespace/name). -/
def keyOf (o : BaseObj) : ResourceKey :=
  { kind := o.kind, nspace := o.nspace, name := o.name }

/-- String-map read used by the model of `common.GetLabel`-style access. -/
def getEntry (m : List (String × String)) (k : String) : Option String :=
  (m.find? (fun p => p.1 == k)).map (fun p => p.2)

/-- String-map write (`common.SetLabel` / `common.SetAnnotation`). -/
def setEntry : List (String × String) → String → String → List (String × String)
  | [], k, v => [(k, v)]
  | p :: rest, k, v =>
    if p.1 = k then (k, v) :: rest else p :: setEntry rest k v

/-- Modelled from the spec: the label key of the ownership label written by
`common.SetLabel(obj, common.OwnerKey, ...)`; the constant itself lives in
the `common` package outside the provided sources, its exact value is
immaterial to the claims. -/
def OwnerKey : String := "maistra.io/owner"

/-- Modelled from the spec: the annotation key of the generation annotation
written by `common.SetAnnotation(obj, common.MeshGenerationKey, ...)`; the
constant lives outside the provided sources. -/
def MeshGenerationKey : String := "maistra.io/meshGeneration"

/-- Outcome of `PatchFactory.CreatePatch` followed by `patch.Apply()`:
`CreatePatch` may fail, return no patch (live state already matches), or
return a patch whose application yields `applyResult`. -/
inductive PatchOutcome where
  | patchErr (e : Err)
  | noPatch
  | needsPatch (applyResult : Option Err)

/-- Environment of external collaborators: every Kubernetes client call and
per-object hook outcome the reconciler observes, as outcome functions.
`get`/`create`/`delete` return `none` on success; `getDeployment` returns the
fetched `status.readyReplicas`; `getWebhook` the `clientConfig.caBundle`
string of each declared webhook entry (empty string for a missing bundle);
`renderings` is the merged result of `renderCharts`; `pruneResult` the
outcome of the generation-based prune of unseen components (its internals
are outside the provided sources). -/
structure Env where
  preprocess : BaseObj → Option Err
  get : ResourceKey → Option Err
  create : BaseObj → Option Err
  createPatch : ResourceKey → PatchOutcome
  delete : ResourceKey → Option Err
  getDeployment : ResourceKey → Except Err Int
  getWebhook : ResourceKey → Except Err (List String)
  renderings : Except Err (List (String × List Manifest))
  getNamespace : Except Err (List (String × String))
  pruneResult : Option Err
  ownerRef : String

/-- The reconciler fields initialised once per pass (`ownerRefs`,
`meshGeneration`) plus the instance namespace and generation they derive
from. -/
structure RFields where
  instanceNamespace : String
  ownerRefs : List String
  meshGeneration : String
  generation : Int
deriving DecidableEq, Repr

/-- Condition-setting convenience wrapper over `setCondition`. -/
def setCond (st : StatusType) (t : ConditionType) (s : ConditionStatus)
    (m : String) : StatusType :=
  { st with conditions := setCondition st.conditions ⟨t, s, m⟩ }

/-- Modelled from the spec: `updateReconcileStatus` (the condition-update
helper of the status package, outside the provided sources) — on a nil error
it marks the status `Installed = True` and `Reconciled = True`, on an error
it records `Reconciled = False` with the error text. -/
def updateReconcileStatus (st : StatusType) (err : Option Err) : StatusType :=
  match err with
  | none => setCond (setCond st .Installed .sTrue "") .Reconciled .sTrue ""
  | some _ => setCond st .Reconciled .sFalse "error"

/-- Whether a delete outcome counts as success in the prune branch
(`err == nil || errors.IsNotFound(err) || errors.IsGone(err)`). -/
def deleteSuccess : Option Err → Bool
  | none => true
  | some e => e.isNotFound || e.isGone

/-- Modelled from the spec: `updateDeleteStatus` (status package, outside the
provided sources) — a successful (or already-gone) deletion marks the entry
`Installed = False` and `Reconciled = True`; a failed deletion records
`Reconciled = False`. -/
def updateDeleteStatus (st : StatusType) (err : Option Err) : StatusType :=
  if deleteSuccess err then
    setCond (setCond st .Installed .sFalse "") .Reconciled .sTrue ""
  else
    setCond st .Reconciled .sFalse "error"

/-- Lines 156-166 of `processObject`: assign the owner reference only when
the object's namespace equals the control-plane namespace, then always set
the ownership label and the mesh-generation annotation. -/
def prepareObject (flds : RFields) (o : BaseObj) : BaseObj :=
  let o1 := if o.nspace = flds.instanceNamespace
            then { o with ownerRefs := flds.ownerRefs } else o
  let o2 := { o1 with labels := setEntry o1.labels OwnerKey flds.instanceNamespace }
  { o2 with annotations :=
      setEntry o2.annotations MeshGenerationKey flds.meshGeneration }

/-- Suffix test used for manifest file names (`strings.HasSuffix`). -/
def strEnds (s p : String) : Bool :=
  p.data.isSuffixOf s.data

/-- Observable readiness checks performed by the post-install hooks: a
deployment-replica check or a webhook CA-bundle check on the given key.
The hook functions return the sequence of checks they performed, in order,
so that check ordering is part of the model's observable behaviour. -/
inductive CheckEvent where
  | deployment (k : ResourceKey)
  | webhook (k : ResourceKey)
deriving DecidableEq, Repr

/-- `waitForDeployment`: re-fetch the deployment; a fetch error is wrapped
into a generic error; `readyReplicas > 0` is ready, otherwise the
distinguished `ComponentNotReadyError` with message `no replica is ready`. -/
def waitForDeployment (env : Env) (k : ResourceKey) : Option Err :=
  match env.getDeployment k with
  | .error _ => some (.apiError ("error getting " ++ k.kind ++ " " ++ k.name))
  | .ok replicas =>
    if replicas > 0 then none else some (.notReady "no replica is ready")

/-- The loop body of `waitForDeployments` for one kind: walk the (already
kind-filtered) resource statuses, check each with `Installed = True`,
fail fast on the first error. -/
def deployLoop (env : Env) : List ResourceStatus → List CheckEvent × Option Err
  | [] => ([], none)
  | s :: rest =>
    if installedTrue s then
      match waitForDeployment env s.resource with
      | some e => ([.deployment s.resource], some e)
      | none =>
        let r := deployLoop env rest
        (.deployment s.resource :: r.1, r.2)
    else deployLoop env rest

/-- `waitForDeployments`: StatefulSets, then Deployments, then
DeploymentConfigs, failing fast between the three loops. -/
def waitForDeployments (env : Env) (rs : List ResourceStatus) :
    List CheckEvent × Option Err :=
  let r1 := deployLoop env (findResourcesOfKind rs "StatefulSet")
  match r1.2 with
  | some e => (r1.1, some e)
  | none =>
    let r2 := deployLoop env (findResourcesOfKind rs "Deployment")
    match r2.2 with
    | some e => (r1.1 ++ r2.1, some e)
    | none =>
      let r3 := deployLoop env (findResourcesOfKind rs "DeploymentConfig")
      (r1.1 ++ r2.1 ++ r3.1, r3.2)

/-- `waitForWebhookCABundleInitialization`: fetch by name; a fetch error is
wrapped; an absent or empty `webhooks` list is vacuously ready; any entry
with a missing or empty `clientConfig.caBundle` yields the not-ready error. -/
def waitForWebhookCABundleInitialization (env : Env) (k : ResourceKey) :
    Option Err :=
  match env.getWebhook k with
  | .error _ => some (.apiError ("error getting " ++ k.kind ++ " " ++ k.name))
  | .ok entries =>
    if entries.isEmpty then none
    else if entries.contains "" then
      some (.notReady ("caBundle in " ++ k.kind ++ " " ++ k.name ++ " not set"))
    else none

/-- The webhook-configuration loop of `postProcessNewComponent`: walk the
(kind-filtered) statuses, CA-bundle-check each with `Installed = True`,
fail fast. -/
def webhookLoop (env : Env) : List ResourceStatus → List CheckEvent × Option Err
  | [] => ([], none)
  | s :: rest =>
    if installedTrue s then
      match waitForWebhookCABundleInitialization env s.resource with
      | some e => ([.webhook s.resource], some e)
      | none =>
        let r := webhookLoop env rest
        (.webhook s.resource :: r.1, r.2)
    else webhookLoop env rest

/-- `postProcessNewComponent`: the per-component post-install hook.  The
galley case runs `waitForDeployments` first and only then the
ValidatingWebhookConfiguration CA-bundle loop; the sidecar-injector case
runs the MutatingWebhookConfiguration CA-bundle loop first and then
`waitForDeployments`; every other component runs `waitForDeployments`
alone.  The returned event list records the checks in execution order. -/
def postProcessNewComponent (env : Env) (name : String) (cs : ComponentStatus) :
    List CheckEvent × Option Err :=
  if name = "istio/charts/galley" then
    let r1 := waitForDeployments env cs.resources
    match r1.2 with
    | some e => (r1.1, some e)
    | none =>
      let rs := findResourcesOfKind cs.resources "ValidatingWebhookConfiguration"
      let r2 := webhookLoop env rs
      (r1.1 ++ r2.1, r2.2)
  else if name = "istio/charts/sidecarInjectorWebhook" then
    let rs := findResourcesOfKind cs.resources "MutatingWebhookConfiguration"
    let r1 := webhookLoop env rs
    match r1.2 with
    | some e => (r1.1, some e)
    | none =>
      let r2 := waitForDeployments env cs.resources
      (r1.1 ++ r2.1, r2.2)
  else waitForDeployments env cs.resources

/-- The core of `processObject` for a non-List object, producing the final
status entry and the returned error.  Mirrors lines 132-230 of
`manifestprocessing.go`: key computation, owner-ref/label/annotation
mutation, prior-status lookup (fresh zero-state entry when absent),
pre-process hook (aborts this object only), then fetch:
not-found leads to create (success sets `observedGeneration = 1`;
`processNewObject` is a nop in the source), any other fetch error is carried;
a found object goes through `CreatePatch`/`Apply` (a nil patch is a no-op),
finally `updateReconcileStatus` records the outcome on the entry. -/
def reconcileBase (env : Env) (flds : RFields) (o : BaseObj)
    (oldStatus : ComponentStatus) : ResourceStatus × Option Err :=
  let key := keyOf o
  let obj := prepareObject flds o
  let st0 : ResourceStatus :=
    match findResourceByKey oldStatus key with
    | some s => s
    | none => { resource := key, status := newStatusType }
  match env.preprocess obj with
  | some e =>
    ({ st0 with status := updateReconcileStatus st0.status (some e) }, some e)
  | none =>
    -- kubectl.CreateApplyAnnotation failure is logged only, not modelled
    let outcome : ResourceStatus × Option Err :=
      match env.get key with
      | some e =>
        if e.isNotFound then
          match env.create obj with
          | none =>
            ({ st0 with status := { st0.status with observedGeneration := 1 } },
              none)
          | some ce => (st0, some ce)
        else (st0, some e)
      | none =>
        match env.createPatch key with
        | .patchErr e => (st0, some e)
        | .noPatch => (st0, none)
        | .needsPatch r =>
          let c1 := removeCondition st0.status.conditions .Reconciled
          ({ st0 with status := { st0.status with conditions := c1 } }, r)
    ({ outcome.1 with status := updateReconcileStatus outcome.1.status outcome.2 },
      outcome.2)

/-- `processObject` on a non-List object threaded through the pass state:
the key is marked as seen and the entry appended before the object is
reconciled (so even a failed object is excluded from pruning and appears in
the new status, as in the source). -/
def processBase (env : Env) (flds : RFields) (o : BaseObj)
    (p : List ResourceKey) (os : ComponentStatus) (nr : List ResourceStatus) :
    List ResourceKey × List ResourceStatus × Option Err :=
  let r := reconcileBase env flds o os
  (p ++ [keyOf o], nr ++ [r.1], r.2)

/-- The recursion of `processObject` over the items of a List-kind object,
collecting per-item errors. -/
def processBaseList (env : Env) (flds : RFields) :
    List BaseObj → List ResourceKey → ComponentStatus → List ResourceStatus →
    List Err → List ResourceKey × List ResourceStatus × List Err
  | [], p, _, nr, errs => (p, nr, errs)
  | o :: rest, p, os, nr, errs =>
    let r := processBase env flds o p os nr
    processBaseList env flds rest r.1 os r.2.1 (errs ++ r.2.2.toList)

/-- `processObject`: dispatch on List kind; a List returns the aggregate of
its item errors. -/
def processObject (env : Env) (flds : RFields) (obj : KObject)
    (p : List ResourceKey) (os : ComponentStatus) (nr : List ResourceStatus) :
    List ResourceKey × List ResourceStatus × Option Err :=
  match obj with
  | .base o => processBase env flds o p os nr
  | .list items =>
    let r := processBaseList env flds items p os nr []
    (r.1, r.2.1, aggregate r.2.2)

/-- The per-document loop of `processManifests`: a YAML or decode failure is
recorded and the document skipped; a decoded object goes through
`processObject`, its error (if any) appended to the running error list. -/
def processDocs (env : Env) (flds : RFields) :
    List RawDoc → List ResourceKey → ComponentStatus → List ResourceStatus →
    List Err → List ResourceKey × List ResourceStatus × List Err
  | [], p, _, nr, errs => (p, nr, errs)
  | .yamlError m :: rest, p, os, nr, errs =>
    processDocs env flds rest p os nr (errs ++ [.parseError m])
  | .decodeError m :: rest, p, os, nr, errs =>
    processDocs env flds rest p os nr (errs ++ [.parseError m])
  | .obj o :: rest, p, os, nr, errs =>
    let r := processObject env flds o p os nr
    processDocs env flds rest r.1 os r.2.1 (errs ++ r.2.2.toList)

/-- The per-manifest loop of `processManifests`: manifests whose name does
not end in `.yaml` are skipped entirely. -/
def processManifestList (env : Env) (flds : RFields) :
    List Manifest → List ResourceKey → ComponentStatus → List ResourceStatus →
    List Err → List ResourceKey × List ResourceStatus × List Err
  | [], p, _, nr, errs => (p, nr, errs)
  | m :: rest, p, os, nr, errs =>
    if strEnds m.name ".yaml" then
      let r := processDocs env flds m.content p os nr errs
      processManifestList env flds rest r.1 os r.2.1 r.2.2
    else processManifestList env flds rest p os nr errs

/-- The deletion branch of `processManifests` (lines 97-122), walking the
prior resource list in reverse.  An entry already processed this pass is
skipped; an entry whose prior `Installed` condition is `False` is dropped;
otherwise the resource is deleted (foreground policy), the entry is appended
to the new status with the delete outcome recorded — on success (including
not-found/gone) with `observedGeneration` reset to 0 (`processDeletedObject`
is a nop in the source), on failure with the error added to the aggregate.
Returns (appended entries, keys a delete was issued for, delete errors). -/
def deleteUnseenRev (env : Env) (processed : List ResourceKey) :
    List ResourceStatus → List ResourceStatus × List ResourceKey × List Err
  | [] => ([], [], [])
  | s :: rest =>
    let tail := deleteUnseenRev env processed rest
    let here : List ResourceStatus × List ResourceKey × List Err :=
      if s.resource ∈ processed then ([], [], [])
      else if (getCondition s.status.conditions .Installed).status = .sFalse then
        ([], [], [])
      else
        let res := env.delete s.resource
        let s1 := { s with status := updateDeleteStatus s.status res }
        if deleteSuccess res then
          ([{ s1 with status := { s1.status with observedGeneration := 0 } }],
            [s.resource], [])
        else ([s1], [s.resource], res.toList)
    (here.1 ++ tail.1, here.2.1 ++ tail.2.1, here.2.2 ++ tail.2.2)

/-- `processManifests`: process every rendered document, then run the
deletion branch over the prior status, aggregate all errors, and set the
component-level condition by install semantics (non-empty manifest list) or
delete semantics (empty list).  Returns the new component status, the keys
deletes were issued for, and the aggregate error. -/
def processManifests (env : Env) (flds : RFields) (manifests : List Manifest)
    (oldStatus : ComponentStatus) :
    ComponentStatus × List ResourceKey × Option Err :=
  let r := processManifestList env flds manifests [] oldStatus [] []
  let d := deleteUnseenRev env r.1 oldStatus.resources.reverse
  let err := aggregate (r.2.2 ++ d.2.2)
  let stF := if manifests.length > 0 then updateReconcileStatus oldStatus.status err
             else updateDeleteStatus oldStatus.status err
  ({ resource := oldStatus.resource, status := stF, resources := r.2.1 ++ d.1 },
    d.2.1, err)

/-- The prior component status selected by `processComponentManifests`:
the instance's entry with its `Reconciled` condition removed, or a fresh
`v1.NewComponentStatus()` named after the component. -/
def componentOldStatus (instStatus : List ComponentStatus) (name : String) :
    ComponentStatus :=
  match findComponentByName instStatus name with
  | none => { resource := name, status := newStatusType, resources := [] }
  | some s =>
    { s with status :=
        { s.status with conditions := removeCondition s.status.conditions .Reconciled } }

/-- The new component status computed by `processComponentManifests` before
the post-install hook runs: the `processManifests` result stamped with the
instance generation. -/
def componentNewStatus (env : Env) (flds : RFields)
    (instStatus : List ComponentStatus) (name : String) (ms : List Manifest) :
    ComponentStatus :=
  let st := (processManifests env flds ms (componentOldStatus instStatus name)).1
  { st with status := { st.status with observedGeneration := flds.generation } }

/-- The acc-free core of `processComponentManifests`: when the renderings
map has no entry for the component the function logs and returns nil without
touching anything; otherwise it processes the manifests, stamps the
generation, runs the post-install hook — a hook error is returned and the
entry is NOT produced — and otherwise yields the entry to append together
with the `processManifests` error. -/
def processComponent (env : Env) (flds : RFields)
    (instStatus : List ComponentStatus) (name : String) :
    Option (List Manifest) →
    Option ComponentStatus × List ResourceKey × Option Err
  | none => (none, [], none)
  | some ms =>
    let newSt := componentNewStatus env flds instStatus name ms
    let pm := processManifests env flds ms (componentOldStatus instStatus name)
    match (postProcessNewComponent env name newSt).2 with
    | some e => (none, pm.2.1, some e)
    | none => (some newSt, pm.2.1, pm.2.2)

/-- `processComponentManifests` acting on the in-progress status list
(`r.Status.ComponentStatus`): the computed entry (when any) is appended. -/
def processComponentManifests (env : Env) (flds : RFields)
    (instStatus : List ComponentStatus) (acc : List ComponentStatus)
    (name : String) (rend : Option (List Manifest)) :
    List ComponentStatus × List ResourceKey × Option Err :=
  let r := processComponent env flds instStatus name rend
  (acc ++ r.1.toList, r.2.1, r.2.2)

/-- The prefix test `strings.HasPrefix` used by the catch-all component walk. -/
def strStarts (s p : String) : Bool :=
  p.data.isPrefixOf s.data

/-- The fixed ordered component list of `Reconcile`. -/
def orderedComponents : List String :=
  ["istio",
   "istio/charts/istio_cni",
   "istio/charts/security",
   "istio/charts/prometheus",
   "istio/charts/tracing",
   "istio/charts/galley",
   "istio/charts/mixer",
   "istio/charts/pilot",
   "istio/charts/gateways",
   "istio/charts/sidecarInjectorWebhook",
   "istio/charts/grafana",
   "istio/charts/kiali"]

/-- Map lookup on the rendered-charts mapping (`r.renderings[name]`):
`none` models an absent key, `some ms` a present entry (possibly empty). -/
def lookupRenderings (rends : List (String × List Manifest)) (k : String) :
    Option (List Manifest) :=
  (rends.find? (fun p => p.1 == k)).map (fun p => p.2)

/-- The fixed-order walk of `Reconcile`: each name is marked processed and
handed to `processComponentManifests`; the first error stops the walk.
Returns (names processed, status list, error). -/
def walkComponents (env : Env) (flds : RFields)
    (instStatus : List ComponentStatus)
    (rends : List (String × List Manifest)) :
    List String → List String → List ComponentStatus →
    List String × List ComponentStatus × Option Err
  | [], processed, acc => (processed, acc, none)
  | n :: rest, processed, acc =>
    let r := processComponentManifests env flds instStatus acc n
      (lookupRenderings rends n)
    match r.2.2 with
    | some e => (processed ++ [n], r.1, some e)
    | none => walkComponents env flds instStatus rends rest (processed ++ [n]) r.1

/-- The catch-all walk over the rendered component names: keys without the
`istio/` prefix are skipped, keys already processed are skipped, the rest is
processed fail-fast exactly like the ordered walk. -/
def walkOtherComponents (env : Env) (flds : RFields)
    (instStatus : List ComponentStatus)
    (rends : List (String × List Manifest)) :
    List String → List String → List ComponentStatus →
    List String × List ComponentStatus × Option Err
  | [], processed, acc => (processed, acc, none)
  | k :: rest, processed, acc =>
    if strStarts k "istio/" = false then
      walkOtherComponents env flds instStatus rends rest processed acc
    else if k ∈ processed then
      walkOtherComponents env flds instStatus rends rest processed acc
    else
      let r := processComponentManifests env flds instStatus acc k
        (lookupRenderings rends k)
      match r.2.2 with
      | some e => (processed ++ [k], r.1, some e)
      | none =>
        walkOtherComponents env flds instStatus rends rest (processed ++ [k]) r.1

/-- How a pass aborted: a chart-rendering failure returns directly without
classification; everything else goes through `handleError`. -/
inductive AbortKind where
  | renderAbort (e : Err)
  | classified (e : Err)

/-- The desired-state instance: namespace, generation and prior status. -/
structure Instance where
  nspace : String
  generation : Int
  status : ControlPlaneStatus
deriving DecidableEq, Repr

/-- The per-pass reconciler fields as initialised by `Reconcile`
(`ownerRefs` from `NewOwnerRef`, `meshGeneration` from
`strconv.FormatInt(generation, 10)`). -/
def fldsOf (env : Env) (inst : Instance) : RFields :=
  { instanceNamespace := inst.nspace,
    ownerRefs := [env.ownerRef],
    meshGeneration := toString inst.generation,
    generation := inst.generation }

/-- The body of `Reconcile` up to (not including) final status persistence:
render the charts (failure aborts unclassified), read the namespace
(failure aborts classified; the label upsert's own update error is dropped
by the source), then the ordered walk, the catch-all walk, the fixed
trailing `maistra-threescale` component and the generation-based prune,
each failing fast into a classified abort.  Returns the processed component
names, the accumulated status list, and how the pass aborted (if it did). -/
def reconcileBody (env : Env) (inst : Instance) :
    List String × List ComponentStatus × Option AbortKind :=
  match env.renderings with
  | .error e => ([], [], some (.renderAbort e))
  | .ok rends =>
    match env.getNamespace with
    | .error e => ([], [], some (.classified e))
    | .ok _ =>
      let flds := fldsOf env inst
      let instStatus := inst.status.componentStatus
      let w1 := walkComponents env flds instStatus rends orderedComponents [] []
      match w1.2.2 with
      | some e => (w1.1, w1.2.1, some (.classified e))
      | none =>
        let keys := rends.map (fun p => p.1)
        let w2 := walkOtherComponents env flds instStatus rends keys w1.1 w1.2.1
        match w2.2.2 with
        | some e => (w2.1, w2.2.1, some (.classified e))
        | none =>
          let processed := w2.1 ++ ["maistra-threescale"]
          let r3 := processComponentManifests env flds instStatus w2.2.1
            "maistra-threescale" (lookupRenderings rends "maistra-threescale")
          match r3.2.2 with
          | some e => (processed, r3.1, some (.classified e))
          | none =>
            match env.pruneResult with
            | some e => (processed, r3.1, some (.classified e))
            | none => (processed, r3.1, none)

/-- `reconcile.Result`: requeue flag and delay (in seconds). -/
structure ReconcileResult where
  requeue : Bool
  requeueAfterSeconds : Nat
deriving DecidableEq, Repr

/-- The initial in-progress top-level status (`r.Status`) of a pass. -/
def statusInit : StatusType := { observedGeneration := 0, conditions := [] }

/-- `handleError`: stamp the observed generation, record the failed
`Reconciled` condition, persist the status (`UpdateStatus`; its outcome
`u` is logged only and never used), then map a `ComponentNotReadyError` to a
5-second requeue with a nil returned error and every other error to a plain
verbatim return. -/
def handleError (_u : Option Err) (st : ControlPlaneStatus) (generation : Int)
    (e : Err) : ControlPlaneStatus × ReconcileResult × Option Err :=
  let st1 : StatusType := { st.status with observedGeneration := generation }
  let stF : ControlPlaneStatus := { st with status := updateReconcileStatus st1 (some e) }
  if e.isNotReady then
    (stF, { requeue := true, requeueAfterSeconds := 5 }, none)
  else
    (stF, { requeue := false, requeueAfterSeconds := 0 }, some e)

/-- Everything a reconciliation pass returns or persists: the component
names handed to the Manifest Processor, the status written back to the
instance, the `reconcile.Result`, and the returned error. -/
structure PassOutcome where
  processed : List String
  instanceStatus : ControlPlaneStatus
  result : ReconcileResult
  err : Option Err

/-- `ControlPlaneReconciler.Reconcile`: runs `reconcileBody` and finishes
the pass.  A render abort persists the failed condition on the prior
instance status and returns the error unclassified; a classified abort goes
through `handleError`; on success the generation is stamped, the
`Reconciled` condition set, and the status persisted — a persistence
failure `u` (the `UpdateStatus` outcome, passed separately from `env`)
is returned as the pass error exactly when no reconciliation error exists. -/
def Reconcile (env : Env) (updateStatusResult : Option Err) (inst : Instance) :
    PassOutcome :=
  match reconcileBody env inst with
  | (p, _, some (.renderAbort e)) =>
    let prior := inst.status
    let c1 := removeCondition prior.status.conditions .Reconciled
    let st1 := { prior.status with conditions := c1 }
    { processed := p,
      instanceStatus := { prior with status := updateReconcileStatus st1 (some e) },
      result := { requeue := false, requeueAfterSeconds := 0 },
      err := some e }
  | (p, acc, some (.classified e)) =>
    let r := handleError updateStatusResult
      { status := statusInit, componentStatus := acc } inst.generation e
    { processed := p, instanceStatus := r.1, result := r.2.1, err := r.2.2 }
  | (p, acc, none) =>
    let stF : ControlPlaneStatus :=
      { status := updateReconcileStatus
          { statusInit with observedGeneration := inst.generation } none,
        componentStatus := acc }
    match updateStatusResult with
    | some u =>
      { processed := p, instanceStatus := stF,
        result := { requeue := false, requeueAfterSeconds := 0 }, err := some u }
    | none =>
      { processed := p, instanceStatus := stF,
        result := { requeue := false, requeueAfterSeconds := 0 }, err := none }

/-- Whether a prior status entry enters the deletion branch: its prior
`Installed` condition is anything but explicit `False`. -/
def prunable (s : ResourceStatus) : Bool :=
  !((getCondition s.status.conditions .Installed).status == .sFalse)

/-- The keys the deletion branch issues deletes for when nothing was
rendered: the prunable prior entries, in reverse of their prior order. -/
def prunableKeys (rs : List ResourceStatus) : List ResourceKey :=
  (rs.reverse.filter prunable).map (fun s => s.resource)

/-- The plain objects carried by a decoded manifest object. -/
def objBases : KObject → List BaseObj
  | .base o => [o]
  | .list items => items

/-- All plain objects of a document list (parse failures contribute none). -/
def docsBases : List RawDoc → List BaseObj
  | [] => []
  | .obj o :: rest => objBases o ++ docsBases rest
  | .yamlError _ :: rest => docsBases rest
  | .decodeError _ :: rest => docsBases rest

/-- The parse/decode errors of a document list, in document order: one entry
per malformed document. -/
def docsParseErrs : List RawDoc → List Err
  | [] => []
  | .yamlError m :: rest => .parseError m :: docsParseErrs rest
  | .decodeError m :: rest => .parseError m :: docsParseErrs rest
  | .obj _ :: rest => docsParseErrs rest

/-!  Concrete fixtures used by witnesses and counterexamples. -/

/-- An environment in which every external call succeeds and nothing is
rendered. -/
def benignEnv : Env :=
  { preprocess := fun _ => none,
    get := fun _ => none,
    create := fun _ => none,
    createPatch := fun _ => .noPatch,
    delete := fun _ => none,
    getDeployment := fun _ => .ok 1,
    getWebhook := fun _ => .ok ["ca"],
    renderings := .ok [],
    getNamespace := .ok [],
    pruneResult := none,
    ownerRef := "owner" }

/-- Reconciler fields for a control plane in namespace `cp`, generation 2. -/
def cpFields : RFields :=
  { instanceNamespace := "cp", ownerRefs := ["owner"], meshGeneration := "2",
    generation := 2 }

/-- A status record carrying `Installed = True`. -/
def readyST : StatusType :=
  { observedGeneration := 1, conditions := [⟨.Installed, .sTrue, ""⟩] }

/-- A previously installed ConfigMap that is no longer rendered. -/
def staleRes : ResourceStatus :=
  { resource := { kind := "ConfigMap", nspace := "cp", name := "stale" },
    status := readyST }

/-- Prior instance status: the kiali component still tracks `staleRes`. -/
def kialiPrior : List ComponentStatus :=
  [{ resource := "istio/charts/kiali", status := statusInit,
     resources := [staleRes] }]

/-- A component status tracking only `staleRes`. -/
def staleComponent : ComponentStatus :=
  { resource := "comp", status := statusInit, resources := [staleRes] }

/-- A minimal instance in namespace `cp` at generation 1 with empty status. -/
def cpInstance : Instance :=
  { nspace := "cp", generation := 1,
    status := { status := statusInit, componentStatus := [] } }

/-- Key of a galley Deployment. -/
def depKey : ResourceKey := { kind := "Deployment", nspace := "cp", name := "galley-dep" }

/-- Key of the galley ValidatingWebhookConfiguration. -/
def vwcKey : ResourceKey :=
  { kind := "ValidatingWebhookConfiguration", nspace := "", name := "galley-vwc" }

/-- Galley component status tracking an installed Deployment and an
installed ValidatingWebhookConfiguration. -/
def galleyStatus : ComponentStatus :=
  { resource := "istio/charts/galley", status := statusInit,
    resources := [⟨depKey, readyST⟩, ⟨vwcKey, readyST⟩] }

/-- Environment in which the deployment reports zero ready replicas AND the
webhook CA bundle is still empty. -/
def galleyEnv : Env :=
  { benignEnv with getDeployment := fun _ => .ok 0, getWebhook := fun _ => .ok [""] }

/-- A rendered manifest for a component named `acme` (no `istio/` prefix). -/
def acmeManifest : Manifest :=
  { name := "acme.yaml",
    content := [.obj (.base ⟨"ConfigMap", "other", "x", [], [], []⟩)] }

/-- Environment rendering only the `acme` component. -/
def acmeEnv : Env := { benignEnv with renderings := .ok [("acme", [acmeManifest])] }

/-- Environment whose `istio` component renders one unparseable document. -/
def istioBadEnv : Env :=
  { benignEnv with
    renderings := .ok [("istio", [{ name := "bad.yaml", content := [.yamlError "bad"] }])] }

/-- A pilot Deployment object rendered into the control-plane namespace. -/
def pilotDep : BaseObj := ⟨"Deployment", "cp", "pilot-dep", [], [], []⟩

/-- Manifests rendering exactly the pilot Deployment. -/
def pilotManifests : List Manifest :=
  [{ name := "dep.yaml", content := [.obj (.base pilotDep)] }]

/-- Environment in which every live fetch returns not-found (objects get
created) and the created deployment reports zero ready replicas. -/
def pilotEnv : Env :=
  { benignEnv with
    get := fun _ => some (.notFound "nf"),
    getDeployment := fun _ => .ok 0 }

/-- A pre-existing entry in the in-progress status list. -/
def dummyComponent : ComponentStatus :=
  { resource := "existing", status := statusInit, resources := [] }

/-- Two well-formed objects surrounding a malformed document. -/
def objA : BaseObj := ⟨"ConfigMap", "cp", "a", [], [], []⟩

/-- Second well-formed object for the partial-failure witness. -/
def objB : BaseObj := ⟨"Service", "cp", "b", [], [], []⟩

/-- Document list: object, malformed document, object. -/
def docsMixed : List RawDoc :=
  [.obj (.base objA), .yamlError "bad", .obj (.base objB)]

/-- An empty prior component status. -/
def emptyComponent : ComponentStatus :=
  { resource := "c", status := statusInit, resources := [] }

/-- An object rendered into the control-plane namespace. -/
def objIn : BaseObj := ⟨"ConfigMap", "cp", "in", [], [], []⟩

/-- An object rendered into a different namespace. -/
def objOut : BaseObj := ⟨"ConfigMap", "other", "out", [], [], []⟩

/-- Environment whose deployments report zero ready replicas. -/
def zeroReplicaEnv : Env := { benignEnv with getDeployment := fun _ => .ok 0 }

/-- Environment whose chart rendering fails. -/
def renderFailEnv : Env :=
  { benignEnv with renderings := .error (.apiError "render") }

/-- Environment in which every delete call is denied. -/
def deleteFailEnv : Env :=
  { benignEnv with delete := fun _ => some (.apiError "denied") }

theorem getCondition_setCondition_self (cs : List Condition) (c : Condition) :
    getCondition (setCondition cs c) c.ctype = c := by
  induction cs with
  | nil => simp [setCondition, getCondition]
  | cons d rest ih =>
    by_cases h : d.ctype = c.ctype
    · simp [setCondition, h, getCondition]
    · simp [setCondition, h, getCondition, ih]

theorem getCondition_setCondition_ne (cs : List Condition) (c : Condition)
    (t : ConditionType) (h : t ≠ c.ctype) :
    getCondition (setCondition cs c) t = getCondition cs t := by
  induction cs with
  | nil =>
    have hc : ¬ c.ctype = t := fun hh => h hh.symm
    simp only [setCondition, getCondition, if_neg hc]
  | cons d rest ih =>
    by_cases hd : d.ctype = c.ctype
    · have hc : ¬ c.ctype = t := fun hh => h hh.symm
      have hdt : ¬ d.ctype = t := by rw [hd]; exact hc
      simp only [setCondition, if_pos hd, getCondition, if_neg hc, if_neg hdt]
    · by_cases hdt : d.ctype = t
      · simp only [setCondition, if_neg hd, getCondition, if_pos hdt]
      · simp only [setCondition, if_neg hd, getCondition, if_neg hdt, ih]

theorem installed_updateDeleteStatus_success (st : StatusType) (r : Option Err)
    (h : deleteSuccess r = true) :
    getCondition (updateDeleteStatus st r).conditions .Installed
      = ⟨.Installed, .sFalse, ""⟩ := by
  have h1 : getCondition
      (setCondition (setCondition st.conditions ⟨.Installed, .sFalse, ""⟩)
        ⟨.Reconciled, .sTrue, ""⟩) .Installed
      = ⟨.Installed, .sFalse, ""⟩ := by
    rw [show (ConditionType.Installed)
        = (⟨.Installed, ConditionStatus.sFalse, ""⟩ : Condition).ctype from rfl]
    rw [getCondition_setCondition_ne _ _ _ (by simp)]
    exact getCondition_setCondition_self _ _
  simp [updateDeleteStatus, h, setCond, h1]

theorem getEntry_setEntry_self (m : List (String × String)) (k v : String) :
    getEntry (setEntry m k v) k = some v := by
  induction m with
  | nil => simp [setEntry, getEntry]
  | cons p rest ih =>
    by_cases h : p.1 = k
    · simp [setEntry, h, getEntry]
    · simpa [setEntry, h, getEntry] using ih

/-- C8: for every non-List object processed, the owner reference is assigned
if and only if the object's namespace equals the control plane's namespace
(otherwise the owner-reference slice is left untouched), while the ownership
label (with the control-plane namespace as value) and the generation
annotation are set on every object regardless of its namespace.
`prepareObject` is the object-mutation prefix of `processObject`
(`reconcileBase`). -/
theorem c8_owner_ref_and_labels (flds : RFields) (o : BaseObj) :
    (o.nspace = flds.instanceNamespace →
      (prepareObject flds o).ownerRefs = flds.ownerRefs)
    ∧ (o.nspace ≠ flds.instanceNamespace →
      (prepareObject flds o).ownerRefs = o.ownerRefs)
    ∧ getEntry (prepareObject flds o).labels OwnerKey
        = some flds.instanceNamespace
    ∧ getEntry (prepareObject flds o).annotations MeshGenerationKey
        = some flds.meshGeneration := by
  refine ⟨?_, ?_, ?_, ?_⟩
  · intro h; simp [prepareObject, h]
  · intro h; simp [prepareObject, h]
  · by_cases h : o.nspace = flds.instanceNamespace <;>
      simp [prepareObject, h, getEntry_setEntry_self]
  · by_cases h : o.nspace = flds.instanceNamespace <;>
      simp [prepareObject, h, getEntry_setEntry_self]

/-- Witness for `c8_owner_ref_and_labels`: an object in the control-plane
namespace gets the owner reference, a cross-namespace object keeps none,
and the cross-namespace object still carries the ownership label and the
generation annotation. -/
theorem c8_owner_ref_and_labels_witness :
    (prepareObject cpFields objIn).ownerRefs = ["owner"]
    ∧ (prepareObject cpFields objOut).ownerRefs = []
    ∧ getEntry (prepareObject cpFields objOut).labels OwnerKey = some "cp"
    ∧ getEntry (prepareObject cpFields objOut).annotations MeshGenerationKey
        = some "2" :=
  ⟨(c8_owner_ref_and_labels cpFields objIn).1 rfl,
   (c8_owner_ref_and_labels cpFields objOut).2.1 (by decide),
   (c8_owner_ref_and_labels cpFields objOut).2.2.1,
   (c8_owner_ref_and_labels cpFields objOut).2.2.2⟩

/-- C5: `handleError` yields a 5-second requeue together with a nil returned
error exactly when the abort error is the bare `ComponentNotReadyError`;
every other error is returned verbatim with no requeue; and a deployment
reporting zero ready replicas produces exactly that
`ComponentNotReadyError`. -/
theorem c5_not_ready_classification (u : Option Err) (st : ControlPlaneStatus)
    (gen : Int) (e : Err) :
    ((handleError u st gen e).2
        = ({ requeue := true, requeueAfterSeconds := 5 }, (none : Option Err))
      ↔ e.isNotReady = true)
    ∧ (e.isNotReady = false →
      (handleError u st gen e).2
        = ({ requeue := false, requeueAfterSeconds := 0 }, some e))
    ∧ (∀ env k, env.getDeployment k = .ok 0 →
      waitForDeployment env k = some (.notReady "no replica is ready")) := by
  refine ⟨?_, ?_, ?_⟩
  · constructor
    · intro h
      cases he : e.isNotReady
      · simp [handleError, he] at h
      · rfl
    · intro h; simp [handleError, h]
  · intro h; simp [handleError, h]
  · intro env k h
    simp [waitForDeployment, h]

/-- Witness for `c5_not_ready_classification`: the not-ready error maps to
the 5-second requeue with nil error, and a zero-replica deployment yields
the not-ready error. -/
theorem c5_not_ready_classification_witness :
    (handleError none { status := statusInit, componentStatus := [] } 1
        (.notReady "no replica is ready")).2
      = ({ requeue := true, requeueAfterSeconds := 5 }, none)
    ∧ waitForDeployment zeroReplicaEnv depKey
        = some (.notReady "no replica is ready") :=
  ⟨((c5_not_ready_classification none
      { status := statusInit, componentStatus := [] } 1
      (.notReady "no replica is ready")).1).mpr rfl,
   (c5_not_ready_classification none
      { status := statusInit, componentStatus := [] } 1
      (.notReady "no replica is ready")).2.2 zeroReplicaEnv depKey rfl⟩

/-- C10: when the post-install hook fails on the freshly computed component
status, `processComponentManifests` returns the hook error and does NOT
append the component's entry to the in-progress status list (even though the
manifests were already applied); the entry is appended exactly when the hook
succeeds. -/
theorem c10_hook_gates_append (env : Env) (flds : RFields)
    (instStatus : List ComponentStatus) (acc : List ComponentStatus)
    (name : String) (ms : List Manifest) (e : Err) :
    ((postProcessNewComponent env name
        (componentNewStatus env flds instStatus name ms)).2 = some e →
      processComponentManifests env flds instStatus acc name (some ms)
        = (acc,
           (processManifests env flds ms (componentOldStatus instStatus name)).2.1,
           some e))
    ∧ ((postProcessNewComponent env name
        (componentNewStatus env flds instStatus name ms)).2 = none →
      processComponentManifests env flds instStatus acc name (some ms)
        = (acc ++ [componentNewStatus env flds instStatus name ms],
           (processManifests env flds ms (componentOldStatus instStatus name)).2.1,
           (processManifests env flds ms (componentOldStatus instStatus name)).2.2)) := by
  constructor
  · intro h; simp [processComponentManifests, processComponent, h]
  · intro h; simp [processComponentManifests, processComponent, h]

/-- Witness for `c10_hook_gates_append`: the pilot component creates its
Deployment, the deployment reports zero ready replicas, the hook returns the
not-ready error, and the in-progress status list is returned unchanged. -/
theorem c10_hook_gates_append_witness :
    processComponentManifests pilotEnv cpFields [] [dummyComponent]
        "istio/charts/pilot" (some pilotManifests)
      = ([dummyComponent], [], some (.notReady "no replica is ready")) := by
  have h := (c10_hook_gates_append pilotEnv cpFields [] [dummyComponent]
    "istio/charts/pilot" pilotManifests (.notReady "no replica is ready")).1 rfl
  rw [h]
  rfl

theorem deleteUnseenRev_deleted (env : Env) (rs : List ResourceStatus) :
    (deleteUnseenRev env [] rs).2.1
      = (rs.filter prunable).map (fun s => s.resource) := by
  induction rs with
  | nil => rfl
  | cons s rest ih =>
    by_cases h : (getCondition s.status.conditions .Installed).status = .sFalse
    · have hp : prunable s = false := by simp [prunable, h]
      simp [deleteUnseenRev, h, hp, ih]
    · have hp : prunable s = true := by simp [prunable, h]
      cases hds : deleteSuccess (env.delete s.resource) <;>
        simp [deleteUnseenRev, h, hp, hds, ih]

/-- C1 counterexample: for a component whose renderings map entry is absent,
`processComponentManifests` does NOT run the deletion branch — it returns a
nil error, issues no deletes, and appends no entry — even though the prior
status still tracks a prunable (previously installed) resource.  The prior
resource is therefore not deleted in this pass, contradicting the claim. -/
theorem c1_no_renderings_skips :
    processComponentManifests benignEnv cpFields kialiPrior []
        "istio/charts/kiali" none = ([], [], none)
    ∧ prunableKeys (componentOldStatus kialiPrior "istio/charts/kiali").resources
        = [staleRes.resource] :=
  ⟨rfl, rfl⟩

/-- C1 (amended): a component whose renderings map entry is ABSENT is
skipped entirely — no deletion branch, no delete calls, nil error, and no
status entry (so its entry disappears from the snapshot without its
resources being touched); only a component whose entry is PRESENT (possibly
empty) runs the deletion branch: with an empty manifest list,
`processManifests` issues a delete for exactly the prunable prior resources,
in reverse prior order. -/
theorem c1_amended_deletion_branch (env : Env) (flds : RFields)
    (instStatus : List ComponentStatus) (acc : List ComponentStatus)
    (name : String) (st : ComponentStatus) :
    processComponentManifests env flds instStatus acc name none = (acc, [], none)
    ∧ (processManifests env flds [] st).2.1 = prunableKeys st.resources := by
  constructor
  · simp [processComponentManifests, processComponent]
  · simp [processManifests, processManifestList, prunableKeys,
      deleteUnseenRev_deleted]

/-- C2 counterexample: a prior resource that is no longer rendered and whose
delete SUCCEEDS is still carried into the new status snapshot of the same
pass (its entry is appended with the delete outcome recorded), contradicting
the claim that a successfully deleted resource's entry is dropped from the
snapshot returned by that pass. -/
theorem c2_deleted_entry_carried :
    benignEnv.delete staleRes.resource = none
    ∧ (processManifests benignEnv cpFields [] staleComponent).1.resources.map
        (fun s => s.resource) = [staleRes.resource]
    ∧ (processManifests benignEnv cpFields [] staleComponent).2.2 = none :=
  ⟨rfl, rfl, rfl⟩

/-- C2 (amended): a prior resource not rendered this pass whose `Installed`
condition is not `False` always gets a delete call and its entry is carried
into the new status of THIS pass — on success marked `Installed = False`
(and it is then dropped from the snapshot of the FOLLOWING pass), on failure
with the delete error recorded in the aggregate so the deletion is retried. -/
theorem c2_amended_carry_then_drop (env : Env) (flds : RFields) (name : String)
    (stT : StatusType) (s : ResourceStatus) :
    (prunable s = true → deleteSuccess (env.delete s.resource) = true →
      (processManifests env flds [] ⟨name, stT, [s]⟩).1.resources.map
          (fun t => t.resource) = [s.resource]
      ∧ (processManifests env flds [] ⟨name, stT, [s]⟩).1.resources.map
          (fun t => (getCondition t.status.conditions .Installed).status)
          = [.sFalse]
      ∧ (processManifests env flds []
          (processManifests env flds [] ⟨name, stT, [s]⟩).1).1.resources = []
      ∧ (processManifests env flds [] ⟨name, stT, [s]⟩).2.2 = none)
    ∧ (prunable s = true → deleteSuccess (env.delete s.resource) = false →
      (processManifests env flds [] ⟨name, stT, [s]⟩).1.resources.map
          (fun t => t.resource) = [s.resource]
      ∧ (processManifests env flds [] ⟨name, stT, [s]⟩).2.2
          = aggregate (env.delete s.resource).toList) := by
  constructor
  · intro hp hds
    have hint : ¬ ((getCondition s.status.conditions .Installed).status = .sFalse) := by
      simp [prunable] at hp; exact hp
    have hIF := installed_updateDeleteStatus_success s.status (env.delete s.resource) hds
    refine ⟨?_, ?_, ?_, ?_⟩
    · simp [processManifests, processManifestList, deleteUnseenRev, hint, hds]
    · simp [processManifests, processManifestList, deleteUnseenRev, hint, hds, hIF]
    · simp [processManifests, processManifestList, deleteUnseenRev, hint, hds, hIF]
    · simp [processManifests, processManifestList, deleteUnseenRev, hint, hds,
        aggregate]
  · intro hp hds
    have hint : ¬ ((getCondition s.status.conditions .Installed).status = .sFalse) := by
      simp [prunable] at hp; exact hp
    refine ⟨?_, ?_⟩
    · simp [processManifests, processManifestList, deleteUnseenRev, hint, hds]
    · simp [processManifests, processManifestList, deleteUnseenRev, hint, hds]

theorem webhookLoop_complete (env : Env) (rs : List ResourceStatus)
    (h : (webhookLoop env rs).2 = none) :
    ∀ s ∈ rs, installedTrue s = true →
      CheckEvent.webhook s.resource ∈ (webhookLoop env rs).1 := by
  induction rs with
  | nil => intro s hs; simp at hs
  | cons a rest ih =>
    intro s hs hi
    cases hA : installedTrue a
    · have hw : webhookLoop env (a :: rest) = webhookLoop env rest := by
        simp [webhookLoop, hA]
      rcases List.mem_cons.mp hs with hsa | hsr
      · subst hsa; rw [hA] at hi; cases hi
      · rw [hw] at h ⊢
        exact ih h s hsr hi
    · cases hres : waitForWebhookCABundleInitialization env a.resource with
      | some e =>
        have : (webhookLoop env (a :: rest)).2 = some e := by
          simp [webhookLoop, hA, hres]
        rw [h] at this; cases this
      | none =>
        have hw : webhookLoop env (a :: rest)
            = (CheckEvent.webhook a.resource :: (webhookLoop env rest).1,
               (webhookLoop env rest).2) := by
          simp [webhookLoop, hA, hres]
        rcases List.mem_cons.mp hs with hsa | hsr
        · subst hsa; rw [hw]; exact List.mem_cons_self _ _
        · rw [hw] at h ⊢
          exact List.mem_cons_of_mem _ (ih (by simpa using h) s hsr hi)

/-- C3 counterexample: for `istio/charts/galley` with an installed Deployment
that is not ready and an installed ValidatingWebhookConfiguration whose CA
bundle is still empty, the hook performs ONLY the deployment check and
returns its not-ready error — no CA-bundle check happens before (or at all),
even though the CA-bundle check on that webhook would itself fail.  This
refutes the claim that the CA-bundle check runs before the deployment
check. -/
theorem c3_deployment_checked_first :
    postProcessNewComponent galleyEnv "istio/charts/galley" galleyStatus
      = ([.deployment depKey], some (.notReady "no replica is ready"))
    ∧ waitForWebhookCABundleInitialization galleyEnv vwcKey
      = some (.notReady ("caBundle in " ++ vwcKey.kind ++ " " ++ vwcKey.name
          ++ " not set"))
    ∧ installedTrue ⟨vwcKey, readyST⟩ = true :=
  ⟨rfl, rfl, rfl⟩

/-- C3 (amended): for `istio/charts/galley` the post-install hook performs
the default deployment-replica readiness check FIRST; only when it succeeds
does it perform the ValidatingWebhookConfiguration CA-bundle loop, and on a
fully successful hook every installed ValidatingWebhookConfiguration has
been CA-bundle-checked (its check event appears in the hook's trace, after
the deployment events). -/
theorem c3_amended_galley_order (env : Env) (cs : ComponentStatus) :
    (∀ e, (waitForDeployments env cs.resources).2 = some e →
      postProcessNewComponent env "istio/charts/galley" cs
        = ((waitForDeployments env cs.resources).1, some e))
    ∧ ((waitForDeployments env cs.resources).2 = none →
      postProcessNewComponent env "istio/charts/galley" cs
        = ((waitForDeployments env cs.resources).1
            ++ (webhookLoop env (findResourcesOfKind cs.resources
                  "ValidatingWebhookConfiguration")).1,
           (webhookLoop env (findResourcesOfKind cs.resources
              "ValidatingWebhookConfiguration")).2))
    ∧ ((postProcessNewComponent env "istio/charts/galley" cs).2 = none →
      ∀ s ∈ findResourcesOfKind cs.resources "ValidatingWebhookConfiguration",
        installedTrue s = true →
        CheckEvent.webhook s.resource
          ∈ (postProcessNewComponent env "istio/charts/galley" cs).1) := by
  refine ⟨?_, ?_, ?_⟩
  · intro e h; simp [postProcessNewComponent, h]
  · intro h; simp [postProcessNewComponent, h]
  · intro h s hs hi
    cases hd : (waitForDeployments env cs.resources).2 with
    | some e => simp [postProcessNewComponent, hd] at h
    | none =>
      have heq : postProcessNewComponent env "istio/charts/galley" cs
          = ((waitForDeployments env cs.resources).1
              ++ (webhookLoop env (findResourcesOfKind cs.resources
                    "ValidatingWebhookConfiguration")).1,
             (webhookLoop env (findResourcesOfKind cs.resources
                "ValidatingWebhookConfiguration")).2) := by
        simp [postProcessNewComponent, hd]
      rw [heq] at h ⊢
      exact List.mem_append_right _
        (webhookLoop_complete env _ h s hs hi)

/-- Witness for `c3_amended_galley_order`: with a ready deployment and a
populated CA bundle, the galley hook's trace is the deployment check
followed by the webhook check, and the webhook check event is in the
trace. -/
theorem c3_amended_galley_order_witness :
    postProcessNewComponent benignEnv "istio/charts/galley" galleyStatus
      = ([.deployment depKey, .webhook vwcKey], none)
    ∧ CheckEvent.webhook vwcKey
        ∈ (postProcessNewComponent benignEnv "istio/charts/galley" galleyStatus).1 := by
  have h := (c3_amended_galley_order benignEnv galleyStatus).2.1 rfl
  have hm := (c3_amended_galley_order benignEnv galleyStatus).2.2 rfl
    ⟨vwcKey, readyST⟩ (by decide) rfl
  exact ⟨by rw [h]; rfl, hm⟩

theorem walkOther_extends (env : Env) (flds : RFields)
    (instStatus : List ComponentStatus)
    (rends : List (String × List Manifest)) :
    ∀ (keys : List String) (processed : List String)
      (acc : List ComponentStatus) (x : String), x ∈ processed →
      x ∈ (walkOtherComponents env flds instStatus rends keys processed acc).1 := by
  intro keys
  induction keys with
  | nil => intro processed acc x hx; simpa [walkOtherComponents] using hx
  | cons k rest ih =>
    intro processed acc x hx
    by_cases h1 : strStarts k "istio/" = false
    · have hw : walkOtherComponents env flds instStatus rends (k :: rest) processed acc
          = walkOtherComponents env flds instStatus rends rest processed acc := by
        simp [walkOtherComponents, h1]
      rw [hw]; exact ih processed acc x hx
    · by_cases h2 : k ∈ processed
      · have hw : walkOtherComponents env flds instStatus rends (k :: rest) processed acc
            = walkOtherComponents env flds instStatus rends rest processed acc := by
          simp [walkOtherComponents, h1, h2]
        rw [hw]; exact ih processed acc x hx
      · cases hr : (processComponentManifests env flds instStatus acc k
            (lookupRenderings rends k)).2.2 with
        | some e =>
          have hw : walkOtherComponents env flds instStatus rends (k :: rest) processed acc
              = (processed ++ [k],
                 (processComponentManifests env flds instStatus acc k
                   (lookupRenderings rends k)).1, some e) := by
            simp [walkOtherComponents, h1, h2, hr]
          rw [hw]
          exact List.mem_append_left _ hx
        | none =>
          have hw : walkOtherComponents env flds instStatus rends (k :: rest) processed acc
              = walkOtherComponents env flds instStatus rends rest (processed ++ [k])
                  (processComponentManifests env flds instStatus acc k
                    (lookupRenderings rends k)).1 := by
            simp [walkOtherComponents, h1, h2, hr]
          rw [hw]
          exact ih _ _ x (List.mem_append_left _ hx)

/-- C4 counterexample: a rendered component named `acme` (no `istio/`
prefix) is never processed by the pass — `Reconcile`'s processed-component
trace does not contain it — contradicting "regardless of the component's
name". -/
theorem c4_acme_skipped :
    (lookupRenderings [("acme", [acmeManifest])] "acme").isSome = true
    ∧ ¬ ("acme" ∈ (Reconcile acmeEnv none cpInstance).processed) :=
  ⟨rfl, by decide⟩

/-- C4 (amended): after the fixed ordered walk, the catch-all walk processes
every rendered component name that starts with `istio/` and was not already
processed (whenever the walk completes without error), and it skips every
name without the `istio/` prefix — such a name ends up processed exactly
when it already was before the walk (the fixed trailing
`maistra-threescale` add-on is handled separately afterwards). -/
theorem c4_amended_prefix_filter (env : Env) (flds : RFields)
    (instStatus : List ComponentStatus)
    (rends : List (String × List Manifest)) (keys : List String)
    (processed : List String) (acc : List ComponentStatus) :
    ((walkOtherComponents env flds instStatus rends keys processed acc).2.2 = none →
      ∀ k ∈ keys, strStarts k "istio/" = true →
        k ∈ (walkOtherComponents env flds instStatus rends keys processed acc).1)
    ∧ (∀ k, strStarts k "istio/" = false →
        (k ∈ (walkOtherComponents env flds instStatus rends keys processed acc).1
          ↔ k ∈ processed)) := by
  induction keys generalizing processed acc with
  | nil =>
    refine ⟨?_, ?_⟩
    · intro _ k hk; simp at hk
    · intro k _; simp [walkOtherComponents]
  | cons k0 rest ih =>
    by_cases h1 : strStarts k0 "istio/" = false
    · have hw : walkOtherComponents env flds instStatus rends (k0 :: rest) processed acc
          = walkOtherComponents env flds instStatus rends rest processed acc := by
        simp [walkOtherComponents, h1]
      refine ⟨?_, ?_⟩
      · intro hnone k hk hkp
        rw [hw] at hnone ⊢
        rcases List.mem_cons.mp hk with hk0 | hkr
        · subst hk0; rw [hkp] at h1; cases h1
        · exact (ih processed acc).1 hnone k hkr hkp
      · intro k hk
        rw [hw]; exact (ih processed acc).2 k hk
    · by_cases h2 : k0 ∈ processed
      · have hw : walkOtherComponents env flds instStatus rends (k0 :: rest) processed acc
            = walkOtherComponents env flds instStatus rends rest processed acc := by
          simp [walkOtherComponents, h1, h2]
        refine ⟨?_, ?_⟩
        · intro hnone k hk hkp
          rw [hw] at hnone ⊢
          rcases List.mem_cons.mp hk with hk0 | hkr
          · subst hk0; exact walkOther_extends env flds instStatus rends rest processed acc k h2
          · exact (ih processed acc).1 hnone k hkr hkp
        · intro k hk
          rw [hw]; exact (ih processed acc).2 k hk
      · cases hr : (processComponentManifests env flds instStatus acc k0
            (lookupRenderings rends k0)).2.2 with
        | some e =>
          have hw : walkOtherComponents env flds instStatus rends (k0 :: rest) processed acc
              = (processed ++ [k0],
                 (processComponentManifests env flds instStatus acc k0
                   (lookupRenderings rends k0)).1, some e) := by
            simp [walkOtherComponents, h1, h2, hr]
          refine ⟨?_, ?_⟩
          · intro hnone; rw [hw] at hnone; cases hnone
          · intro k hk
            rw [hw]
            have hne : k ≠ k0 := by
              intro hkk; subst hkk; rw [hk] at h1; exact h1 rfl
            simp [hne]
        | none =>
          have hw : walkOtherComponents env flds instStatus rends (k0 :: rest) processed acc
              = walkOtherComponents env flds instStatus rends rest (processed ++ [k0])
                  (processComponentManifests env flds instStatus acc k0
                    (lookupRenderings rends k0)).1 := by
            simp [walkOtherComponents, h1, h2, hr]
          refine ⟨?_, ?_⟩
          · intro hnone k hk hkp
            rw [hw] at hnone ⊢
            rcases List.mem_cons.mp hk with hk0 | hkr
            · subst hk0
              exact walkOther_extends env flds instStatus rends rest _ _ k
                (List.mem_append_right _ (List.mem_singleton_self _))
            · exact (ih _ _).1 hnone k hkr hkp
          · intro k hk
            rw [hw]
            have hne : k ≠ k0 := by
              intro hkk; subst hkk; rw [hk] at h1; exact h1 rfl
            rw [(ih _ _).2 k hk]
            simp [hne]

/-- Witness for `c4_amended_prefix_filter`: an `istio/`-prefixed rendered
name is processed by the catch-all walk, a name without the prefix is not. -/
theorem c4_amended_prefix_filter_witness :
    ("istio/foo" ∈ (walkOtherComponents benignEnv cpFields [] []
        ["istio/foo"] [] []).1)
    ∧ ¬ ("acme" ∈ (walkOtherComponents benignEnv cpFields [] []
        ["acme"] [] []).1) := by
  constructor
  · exact (c4_amended_prefix_filter benignEnv cpFields [] [] ["istio/foo"] [] []).1
      rfl "istio/foo" (by simp) (by decide)
  · intro h
    have := ((c4_amended_prefix_filter benignEnv cpFields [] [] ["acme"] [] []).2
      "acme" (by decide)).mp h
    simp at this

theorem processBaseList_benign (env : Env) (flds : RFields) (os : ComponentStatus) :
    ∀ (items : List BaseObj) (p : List ResourceKey) (nr : List ResourceStatus)
      (errs : List Err),
      (∀ o ∈ items, (reconcileBase env flds o os).2 = none) →
      processBaseList env flds items p os nr errs
        = (p ++ items.map keyOf,
           nr ++ items.map (fun o => (reconcileBase env flds o os).1),
           errs) := by
  intro items
  induction items with
  | nil => intro p nr errs _; simp [processBaseList]
  | cons o rest ih =>
    intro p nr errs h
    have ho := h o (List.mem_cons_self _ _)
    have hrest : ∀ x ∈ rest, (reconcileBase env flds x os).2 = none :=
      fun x hx => h x (List.mem_cons_of_mem _ hx)
    simp [processBaseList, processBase, ho, ih _ _ _ hrest]

/-- C7: within one component's pass, every parse/decode failure contributes
exactly one entry to the collected error list (in document order) and does
not stop processing: when every decoded object itself reconciles cleanly,
the processed-key trace and the appended status entries cover exactly the
well-formed objects, and the error list is the prior errors plus exactly the
parse errors, one per malformed document. -/
theorem c7_parse_failure_containment (env : Env) (flds : RFields)
    (docs : List RawDoc) (os : ComponentStatus) (p : List ResourceKey)
    (nr : List ResourceStatus) (errs : List Err)
    (h : ∀ o ∈ docsBases docs, (reconcileBase env flds o os).2 = none) :
    processDocs env flds docs p os nr errs
      = (p ++ (docsBases docs).map keyOf,
         nr ++ (docsBases docs).map (fun o => (reconcileBase env flds o os).1),
         errs ++ docsParseErrs docs) := by
  induction docs generalizing p nr errs with
  | nil => simp [processDocs, docsBases, docsParseErrs]
  | cons d rest ih =>
    cases d with
    | yamlError m =>
      have h' : ∀ o ∈ docsBases rest, (reconcileBase env flds o os).2 = none := by
        intro o ho; exact h o (by simpa [docsBases] using ho)
      have hrec := ih p nr (errs ++ [Err.parseError m]) h'
      simp [processDocs, docsBases, docsParseErrs, hrec]
    | decodeError m =>
      have h' : ∀ o ∈ docsBases rest, (reconcileBase env flds o os).2 = none := by
        intro o ho; exact h o (by simpa [docsBases] using ho)
      have hrec := ih p nr (errs ++ [Err.parseError m]) h'
      simp [processDocs, docsBases, docsParseErrs, hrec]
    | obj o =>
      have h' : ∀ x ∈ docsBases rest, (reconcileBase env flds x os).2 = none := by
        intro x hx
        exact h x (by simp [docsBases]; exact Or.inr hx)
      cases o with
      | base b =>
        have hb : (reconcileBase env flds b os).2 = none :=
          h b (by simp [docsBases, objBases])
        have hrec := ih (p ++ [keyOf b])
          (nr ++ [(reconcileBase env flds b os).1]) errs h'
        simp [processDocs, processObject, processBase, hb, docsBases, objBases,
          docsParseErrs, hrec]
      | list items =>
        have hl : ∀ x ∈ items, (reconcileBase env flds x os).2 = none := by
          intro x hx
          exact h x (by simp [docsBases, objBases]; exact Or.inl hx)
        have hrec := ih (p ++ items.map keyOf)
          (nr ++ items.map (fun o => (reconcileBase env flds o os).1))
          errs h'
        simp [processDocs, processObject,
          processBaseList_benign env flds os items _ _ _ hl, aggregate,
          docsBases, objBases, docsParseErrs, hrec]

/-- Witness for `c7_parse_failure_containment`: an object, a malformed
document and another object — both objects are processed, and the error
list holds exactly the one parse error. -/
theorem c7_parse_failure_containment_witness :
    (processDocs benignEnv cpFields docsMixed [] emptyComponent [] []).1
      = [keyOf objA, keyOf objB]
    ∧ (processDocs benignEnv cpFields docsMixed [] emptyComponent [] []).2.2
      = [.parseError "bad"] := by
  have h := c7_parse_failure_containment benignEnv cpFields docsMixed
    emptyComponent [] [] [] (by
      intro o ho
      simp [docsMixed, docsBases, objBases] at ho
      rcases ho with h | h <;> subst h <;> rfl)
  refine ⟨?_, ?_⟩ <;> rw [h] <;> rfl

theorem walkComponents_stop (env : Env) (flds : RFields)
    (instStatus : List ComponentStatus)
    (rends : List (String × List Manifest)) (e : Err) :
    ∀ (l1 : List String) (n : String) (l2 : List String)
      (processed : List String) (acc : List ComponentStatus),
      (∀ m ∈ l1, (processComponent env flds instStatus m
        (lookupRenderings rends m)).2.2 = none) →
      (processComponent env flds instStatus n
        (lookupRenderings rends n)).2.2 = some e →
      ∃ acc2, walkComponents env flds instStatus rends (l1 ++ n :: l2) processed acc
        = (processed ++ l1 ++ [n], acc2, some e) := by
  intro l1
  induction l1 with
  | nil =>
    intro n l2 processed acc _ hn
    refine ⟨(processComponentManifests env flds instStatus acc n
      (lookupRenderings rends n)).1, ?_⟩
    have hr : (processComponentManifests env flds instStatus acc n
        (lookupRenderings rends n)).2.2 = some e := hn
    simp [walkComponents, hr]
  | cons m rest ih =>
    intro n l2 processed acc hall hn
    have hm : (processComponentManifests env flds instStatus acc m
        (lookupRenderings rends m)).2.2 = none :=
      hall m (List.mem_cons_self _ _)
    obtain ⟨acc2, hrec⟩ := ih n l2 (processed ++ [m])
      (processComponentManifests env flds instStatus acc m
        (lookupRenderings rends m)).1
      (fun x hx => hall x (List.mem_cons_of_mem _ hx)) hn
    refine ⟨acc2, ?_⟩
    have hw : walkComponents env flds instStatus rends ((m :: rest) ++ n :: l2)
        processed acc
        = walkComponents env flds instStatus rends (rest ++ n :: l2)
            (processed ++ [m])
            (processComponentManifests env flds instStatus acc m
              (lookupRenderings rends m)).1 := by
      simp [walkComponents, hm]
    rw [hw, hrec]
    simp

/-- C9: when the first failing component lies in the fixed ordered list
(everything before it having succeeded), the pass processes exactly the
prefix up to and including that component — no later ordered component, no
catch-all component and not the trailing add-on is handed to the Manifest
Processor — and the pass returns the `handleError` classification of the
failure (5-second requeue with nil error for the not-ready error, the error
verbatim otherwise). -/
theorem c9_component_failure_aborts_walk (env : Env) (u : Option Err)
    (inst : Instance) (rends : List (String × List Manifest))
    (nsLabels : List (String × String)) (l1 l2 : List String) (n : String)
    (e : Err)
    (h1 : env.renderings = .ok rends)
    (h2 : env.getNamespace = .ok nsLabels)
    (h3 : orderedComponents = l1 ++ n :: l2)
    (h4 : ∀ m ∈ l1, (processComponent env (fldsOf env inst)
        inst.status.componentStatus m (lookupRenderings rends m)).2.2 = none)
    (h5 : (processComponent env (fldsOf env inst)
        inst.status.componentStatus n (lookupRenderings rends n)).2.2 = some e) :
    (Reconcile env u inst).processed = l1 ++ [n]
    ∧ (Reconcile env u inst).err = (if e.isNotReady then none else some e)
    ∧ (Reconcile env u inst).result
        = (if e.isNotReady
           then { requeue := true, requeueAfterSeconds := 5 }
           else { requeue := false, requeueAfterSeconds := 0 }) := by
  obtain ⟨acc2, hw⟩ := walkComponents_stop env (fldsOf env inst)
    inst.status.componentStatus rends e l1 n l2 [] [] h4 h5
  have hbody : reconcileBody env inst
      = (l1 ++ [n], acc2, some (.classified e)) := by
    simp only [reconcileBody, h1, h2]
    rw [h3, hw]
    simp
  refine ⟨?_, ?_, ?_⟩ <;>
    simp only [Reconcile, hbody, handleError] <;>
    cases he : e.isNotReady <;> simp [he]

/-- Witness for `c9_component_failure_aborts_walk`: the very first ordered
component (`istio`) renders an unparseable document; the pass processes only
`istio` and returns the aggregate parse error verbatim. -/
theorem c9_component_failure_aborts_walk_witness :
    (Reconcile istioBadEnv none cpInstance).processed = ["istio"]
    ∧ (Reconcile istioBadEnv none cpInstance).err
        = some (.aggregate [.parseError "bad"]) := by
  have h := c9_component_failure_aborts_walk istioBadEnv none cpInstance
    [("istio", [{ name := "bad.yaml", content := [.yamlError "bad"] }])] []
    [] ["istio/charts/istio_cni", "istio/charts/security",
        "istio/charts/prometheus", "istio/charts/tracing",
        "istio/charts/galley", "istio/charts/mixer", "istio/charts/pilot",
        "istio/charts/gateways", "istio/charts/sidecarInjectorWebhook",
        "istio/charts/grafana", "istio/charts/kiali"] "istio"
    (.aggregate [.parseError "bad"]) rfl rfl rfl (by simp) rfl
  exact ⟨h.1, by simpa using h.2.1⟩

/-- C6 counterexample: with no reconciliation error in the pass, a status
persistence failure DOES become the pass's returned error (the source
returns `updateErr` when `err == nil`), contradicting the claim that it
never does. -/
theorem c6_persist_error_returned :
    (Reconcile benignEnv none cpInstance).err = none
    ∧ (Reconcile benignEnv (some (.apiError "boom")) cpInstance).err
        = some (.apiError "boom") :=
  ⟨rfl, rfl⟩

/-- C6 (amended): a status-persistence failure never supersedes an existing
reconciliation error — whatever `UpdateStatus` returns, an aborted pass
returns the same (classified) reconciliation error — but when the pass has
no reconciliation error (and is not the silently-requeued not-ready case),
the persistence failure IS returned as the pass's error. -/
theorem c6_amended_persist_error (env : Env) (u : Err) (inst : Instance) :
    (∀ e, (Reconcile env none inst).err = some e →
      (Reconcile env (some u) inst).err = some e)
    ∧ ((Reconcile env none inst).err = none →
      (Reconcile env none inst).result.requeue = false →
      (Reconcile env (some u) inst).err = some u) := by
  rcases hb : reconcileBody env inst with ⟨p, acc, ab⟩
  constructor
  · intro e he
    match ab with
    | none => simp [Reconcile, hb] at he
    | some (.renderAbort e2) =>
      simp [Reconcile, hb] at he ⊢
      exact he
    | some (.classified e2) =>
      cases h2 : e2.isNotReady
      · simp [Reconcile, hb, handleError, h2] at he ⊢
        exact he
      · simp [Reconcile, hb, handleError, h2] at he
  · intro he hr
    match ab with
    | none => simp [Reconcile, hb]
    | some (.renderAbort e2) => simp [Reconcile, hb] at he
    | some (.classified e2) =>
      cases h2 : e2.isNotReady
      · simp [Reconcile, hb, handleError, h2] at he
      · simp [Reconcile, hb, handleError, h2] at hr

/-- Witness for `c6_amended_persist_error`: a render failure is returned
unchanged even when status persistence also fails; a clean pass with a
persistence failure returns the persistence failure. -/
theorem c6_amended_persist_error_witness :
    (Reconcile renderFailEnv (some (.apiError "boom")) cpInstance).err
        = some (.apiError "render")
    ∧ (Reconcile benignEnv (some (.apiError "boom")) cpInstance).err
        = some (.apiError "boom") :=
  ⟨(c6_amended_persist_error renderFailEnv (.apiError "boom") cpInstance).1
      (.apiError "render") rfl,
   (c6_amended_persist_error benignEnv (.apiError "boom") cpInstance).2 rfl rfl⟩

/-- Witness for `c2_amended_carry_then_drop`: a successfully deleted entry is
carried into this pass's snapshot and dropped by the next pass; a
failed-delete entry is carried with the delete error aggregated. -/
theorem c2_amended_carry_then_drop_witness :
    (processManifests benignEnv cpFields []
        ⟨"comp", statusInit, [staleRes]⟩).1.resources.map
        (fun t => t.resource) = [staleRes.resource]
    ∧ (processManifests benignEnv cpFields []
        (processManifests benignEnv cpFields []
          ⟨"comp", statusInit, [staleRes]⟩).1).1.resources = []
    ∧ (processManifests deleteFailEnv cpFields []
        ⟨"comp", statusInit, [staleRes]⟩).2.2
        = aggregate [.apiError "denied"] := by
  have h1 := (c2_amended_carry_then_drop benignEnv cpFields "comp" statusInit
    staleRes).1 rfl rfl
  have h2 := (c2_amended_carry_then_drop deleteFailEnv cpFields "comp" statusInit
    staleRes).2 rfl rfl
  exact ⟨h1.1, h1.2.2.1, h2.2⟩
